/-
Verification of the EQVST real-time equalizer core (JUCE plugin).

Shallow embedding of the plugin's processing core:
  * `Coeffs` / `CutStage` / `CutFilter` / `MonoChain` model
    `juce::dsp::IIR::Filter<float>` stages and the `ProcessorChain`
    aliases `CutFilter` and `MonoChain` from PluginProcessor.h.
  * Arithmetic is idealized over `ℚ` (the C++ code uses `float`).
  * JUCE library design routines (`makePeakFilter`,
    `designIIRHighpassHighOrderButterworthMethod`, ...) are pure
    library functions external to the repository; they are kept
    abstract as fields of a `Lib` record, and the repository's wrapper
    functions are translated faithfully over that record.
  * `Fifo` models the repository's `Fifo<T>` including the semantics
    of the underlying `juce::AbstractFifo` (which reserves one slot:
    `prepareToWrite` clamps the write count to `freeSpace - 1`).
-/
import Mathlib

namespace EQVST

/-! ## Coefficients and chain settings -/

/-- One normalized 2nd-order IIR coefficient set (a `Coefficients`
value in the source: feed-forward taps b0 b1 b2 and recursive taps
a1 a2, after normalization by a0). -/
structure Coeffs where
  b0 : ℚ
  b1 : ℚ
  b2 : ℚ
  a1 : ℚ
  a2 : ℚ
deriving DecidableEq, Repr

instance : Inhabited Coeffs := ⟨⟨1, 0, 0, 0, 0⟩⟩

/-- The `Slope` enum from PluginProcessor.h: `Slope_12 = 0`,
`Slope_24 = 1`, `Slope_36 = 2`, `Slope_48 = 3`. -/
inductive Slope where
  | slope12
  | slope24
  | slope36
  | slope48
deriving DecidableEq, Repr

/-- Numeric value of the C++ `Slope` enumerator. -/
def Slope.toNat : Slope → ℕ
  | .slope12 => 0
  | .slope24 => 1
  | .slope36 => 2
  | .slope48 => 3

/-- The `ChainSettings` struct: one parameter snapshot. -/
structure ChainSettings where
  peakFreq : ℚ
  peakGainDB : ℚ
  peakQ : ℚ
  lowCutFreq : ℚ
  lowCutSlope : Slope
  highCutFreq : ℚ
  highCutSlope : Slope
deriving DecidableEq, Repr

/-! ## Filter stages and chains -/

/-- One stage of a `CutFilter` (`juce::dsp::IIR::Filter<float>` plus
the enclosing `ProcessorChain`'s bypass flag for that index).
`s1`, `s2` are the transposed-direct-form-II state registers. -/
structure CutStage where
  coeffs : Coeffs
  bypassed : Bool
  s1 : ℚ
  s2 : ℚ
deriving DecidableEq, Repr

/-- `CutFilter = ProcessorChain<Filter, Filter, Filter, Filter>`:
four cascaded 2nd-order sections, each independently bypassable. -/
structure CutFilter where
  stage0 : CutStage
  stage1 : CutStage
  stage2 : CutStage
  stage3 : CutStage
deriving DecidableEq, Repr

/-- Stage of a cut filter by index (`chain.get<Index>()`). -/
def CutFilter.stage (c : CutFilter) (i : Fin 4) : CutStage :=
  match i with
  | ⟨0, _⟩ => c.stage0
  | ⟨1, _⟩ => c.stage1
  | ⟨2, _⟩ => c.stage2
  | ⟨3, _⟩ => c.stage3

/-- Replace a stage's coefficient values
(`updateCoefficients(chain.get<Index>().coefficients, c)`: the shared
coefficient object is overwritten in place, filter state untouched). -/
def CutFilter.setStageCoeffs (c : CutFilter) (i : Fin 4) (v : Coeffs) : CutFilter :=
  match i with
  | ⟨0, _⟩ => { c with stage0 := { c.stage0 with coeffs := v } }
  | ⟨1, _⟩ => { c with stage1 := { c.stage1 with coeffs := v } }
  | ⟨2, _⟩ => { c with stage2 := { c.stage2 with coeffs := v } }
  | ⟨3, _⟩ => { c with stage3 := { c.stage3 with coeffs := v } }

/-- `chain.setBypassed<Index>(b)`. -/
def CutFilter.setStageBypassed (c : CutFilter) (i : Fin 4) (b : Bool) : CutFilter :=
  match i with
  | ⟨0, _⟩ => { c with stage0 := { c.stage0 with bypassed := b } }
  | ⟨1, _⟩ => { c with stage1 := { c.stage1 with bypassed := b } }
  | ⟨2, _⟩ => { c with stage2 := { c.stage2 with bypassed := b } }
  | ⟨3, _⟩ => { c with stage3 := { c.stage3 with bypassed := b } }

/-- `updateFilter<Index>(chain, coefficients)` from PluginProcessor.h:
installs `coefficients[Index]` into stage `Index` and un-bypasses it. -/
def updateFilter (idx : Fin 4) (chain : CutFilter) (coefficients : Fin 4 → Coeffs) :
    CutFilter :=
  (chain.setStageCoeffs idx (coefficients idx)).setStageBypassed idx false

/-- `updateCutFilter(filter, coefficients, slope)` from
PluginProcessor.h: bypasses all four stages, then enables stage `i`
with `coefficients[i]` for each `i` with `slope >= i` (the C++
comparisons `slope >= Slope_12` ... `slope >= Slope_48`). -/
def updateCutFilter (filter : CutFilter) (coefficients : Fin 4 → Coeffs)
    (slope : Slope) : CutFilter :=
  let f0 := ((((filter.setStageBypassed 0 true).setStageBypassed 1 true).setStageBypassed
      2 true).setStageBypassed 3 true)
  let f1 := if slope.toNat ≥ 0 then updateFilter 0 f0 coefficients else f0
  let f2 := if slope.toNat ≥ 1 then updateFilter 1 f1 coefficients else f1
  let f3 := if slope.toNat ≥ 2 then updateFilter 2 f2 coefficients else f2
  if slope.toNat ≥ 3 then updateFilter 3 f3 coefficients else f3

/-! ## Peak stage, mono chain, processor -/

/-- The `Peak` position of a `MonoChain`
(`juce::dsp::IIR::Filter<float>` plus the `ProcessorChain`'s bypass
flag for the `Peak` index; the processor never writes that flag). -/
structure PeakStage where
  coeffs : Coeffs
  bypassed : Bool
  s1 : ℚ
  s2 : ℚ
deriving DecidableEq, Repr

/-- `MonoChain = ProcessorChain<CutFilter, Filter, CutFilter>` with
positions `LowCut`, `Peak`, `HighCut`.  (The chain-level bypass flags
of the `LowCut`/`HighCut` positions are never read or written by the
program and are omitted.) -/
structure MonoChain where
  lowCut : CutFilter
  peak : PeakStage
  highCut : CutFilter
deriving DecidableEq, Repr

/-- JUCE library design routines used by the repository.  They are
pure functions external to this codebase; the embedding keeps them
abstract.  `designHighpass`/`designLowpass` model
`FilterDesign<float>::designIIR{Highpass,Lowpass}HighOrderButterworthMethod
(frequency, sampleRate, order)`, returning the cascade of 2nd-order
sections (only indices below `order / 2` are ever accessed). -/
structure Lib where
  makePeakCoefficients : ℚ → ℚ → ℚ → ℚ → Coeffs
  decibelsToGain : ℚ → ℚ
  designHighpass : ℚ → ℚ → ℕ → (Fin 4 → Coeffs)
  designLowpass : ℚ → ℚ → ℕ → (Fin 4 → Coeffs)

/-- `makePeakFilter(chainSettings, sampleRate)` from
PluginProcessor.cpp: calls the library peak design with the sample
rate, the requested peak frequency and Q unmodified, and the gain
converted from decibels. -/
def makePeakFilter (lib : Lib) (chainSettings : ChainSettings) (sampleRate : ℚ) :
    Coeffs :=
  lib.makePeakCoefficients sampleRate chainSettings.peakFreq chainSettings.peakQ
    (lib.decibelsToGain chainSettings.peakGainDB)

/-- `makeLowCutFilter(chainSettings, sampleRate)` from
PluginProcessor.h: Butterworth highpass of order
`(lowCutSlope + 1) * 2` at the requested frequency, unmodified. -/
def makeLowCutFilter (lib : Lib) (chainSettings : ChainSettings) (sampleRate : ℚ) :
    Fin 4 → Coeffs :=
  lib.designHighpass chainSettings.lowCutFreq sampleRate
    ((chainSettings.lowCutSlope.toNat + 1) * 2)

/-- `makeHighCutFilter(chainSettings, sampleRate)` from
PluginProcessor.h. -/
def makeHighCutFilter (lib : Lib) (chainSettings : ChainSettings) (sampleRate : ℚ) :
    Fin 4 → Coeffs :=
  lib.designLowpass chainSettings.highCutFreq sampleRate
    ((chainSettings.highCutSlope.toNat + 1) * 2)

/-- The processor state visible to the update protocol: the parameter
store (`apvts`, abstracted to the seven values `getChainSettings`
reads), the host-supplied sample rate, and the two channel chains. -/
structure Processor where
  params : ChainSettings
  sampleRate : ℚ
  leftChain : MonoChain
  rightChain : MonoChain
deriving DecidableEq, Repr

/-- `getChainSettings(apvts)`: one snapshot of the seven raw
parameter values. -/
def getChainSettings (p : Processor) : ChainSettings := p.params

/-- `updateCoefficients(chain.get<Peak>().coefficients, v)` applied to
one chain: overwrites the peak coefficient values in place. -/
def MonoChain.setPeakCoeffs (m : MonoChain) (v : Coeffs) : MonoChain :=
  { m with peak := { m.peak with coeffs := v } }

/-- `EQtutAudioProcessor::updatePeakFilter`: computes the peak
coefficients once and installs them into both chains. -/
def updatePeakFilter (lib : Lib) (chainSettings : ChainSettings) (p : Processor) :
    Processor :=
  let peakCoefficients := makePeakFilter lib chainSettings p.sampleRate
  { p with
    leftChain := p.leftChain.setPeakCoeffs peakCoefficients
    rightChain := p.rightChain.setPeakCoeffs peakCoefficients }

/-- `EQtutAudioProcessor::updateLowCutFilters`: designs the low-cut
coefficient cascade once (inline call to the Butterworth highpass
design, as in the source) and reconfigures both chains' `LowCut`
positions with it. -/
def updateLowCutFilters (lib : Lib) (chainSettings : ChainSettings) (p : Processor) :
    Processor :=
  let lowCutCoefficients := lib.designHighpass chainSettings.lowCutFreq p.sampleRate
    ((chainSettings.lowCutSlope.toNat + 1) * 2)
  { p with
    leftChain := { p.leftChain with
      lowCut := updateCutFilter p.leftChain.lowCut lowCutCoefficients
        chainSettings.lowCutSlope }
    rightChain := { p.rightChain with
      lowCut := updateCutFilter p.rightChain.lowCut lowCutCoefficients
        chainSettings.lowCutSlope } }

/-- `EQtutAudioProcessor::updateHighCutFilters`. -/
def updateHighCutFilters (lib : Lib) (chainSettings : ChainSettings) (p : Processor) :
    Processor :=
  let highCutCoefficients := lib.designLowpass chainSettings.highCutFreq p.sampleRate
    ((chainSettings.highCutSlope.toNat + 1) * 2)
  { p with
    leftChain := { p.leftChain with
      highCut := updateCutFilter p.leftChain.highCut highCutCoefficients
        chainSettings.highCutSlope }
    rightChain := { p.rightChain with
      highCut := updateCutFilter p.rightChain.highCut highCutCoefficients
        chainSettings.highCutSlope } }

/-- `EQtutAudioProcessor::updateFilters`: one snapshot, then low cut,
high cut, peak, in that order.  There is no sample-rate guard. -/
def updateFilters (lib : Lib) (p : Processor) : Processor :=
  let chainSettings := getChainSettings p
  updatePeakFilter lib chainSettings
    (updateHighCutFilters lib chainSettings
      (updateLowCutFilters lib chainSettings p))

/-- Two cut filters agree on every stage's coefficient values and
bypass flag. -/
def cutFiltersMatch (a b : CutFilter) : Prop :=
  ∀ i : Fin 4,
    (a.stage i).coeffs = (b.stage i).coeffs
    ∧ (a.stage i).bypassed = (b.stage i).bypassed

instance (a b : CutFilter) : Decidable (cutFiltersMatch a b) := by
  unfold cutFiltersMatch; infer_instance

/-- Stereo symmetry: the two channel chains agree on every stage's
coefficient set and bypass flag (peak stage, four low-cut stages,
four high-cut stages). -/
def chainsSymmetric (l r : MonoChain) : Prop :=
  l.peak.coeffs = r.peak.coeffs
  ∧ l.peak.bypassed = r.peak.bypassed
  ∧ cutFiltersMatch l.lowCut r.lowCut
  ∧ cutFiltersMatch l.highCut r.highCut

instance (l r : MonoChain) : Decidable (chainsSymmetric l r) := by
  unfold chainsSymmetric; infer_instance

/-! ## Concrete instances used to evaluate the model -/

/-- A concrete instantiation of the abstract library design routines,
used to evaluate the model on concrete inputs. -/
def constLib : Lib where
  makePeakCoefficients := fun _ _ _ _ => ⟨2, 0, 0, 0, 0⟩
  decibelsToGain := fun x => x
  designHighpass := fun _ _ _ _ => ⟨3, 0, 0, 0, 0⟩
  designLowpass := fun _ _ _ _ => ⟨4, 0, 0, 0, 0⟩

/-- A library instance that records, in the `b0` slot of each produced
coefficient set, the frequency argument the design routine received
(and in `b1` the sample rate it received). -/
def probeLib : Lib where
  makePeakCoefficients := fun sr freq _ _ => ⟨freq, sr, 0, 0, 0⟩
  decibelsToGain := fun x => x
  designHighpass := fun freq sr _ _ => ⟨freq, sr, 0, 0, 0⟩
  designLowpass := fun freq sr _ _ => ⟨freq, sr, 0, 0, 0⟩

/-- A freshly constructed filter stage: identity coefficients, not
bypassed, zero state. -/
def freshStage : CutStage := ⟨⟨1, 0, 0, 0, 0⟩, false, 0, 0⟩

/-- A freshly constructed cut filter. -/
def freshCut : CutFilter := ⟨freshStage, freshStage, freshStage, freshStage⟩

/-- A freshly constructed mono chain. -/
def freshChain : MonoChain := ⟨freshCut, ⟨⟨1, 0, 0, 0, 0⟩, false, 0, 0⟩, freshCut⟩

/-- The default parameter values from `createParameterLayout`. -/
def defaultSettings : ChainSettings :=
  ⟨750, 0, 1, 20, .slope12, 20000, .slope12⟩

/-- A processor at the default parameter values, 44100 Hz. -/
def defaultProcessor : Processor :=
  ⟨defaultSettings, 44100, freshChain, freshChain⟩

/-- A parameter snapshot whose requested frequencies sit at 20 kHz:
at a 20 kHz sample rate this is at/beyond the 10 kHz Nyquist limit. -/
def nyquistSettings : ChainSettings :=
  ⟨20000, 0, 1, 20000, .slope12, 20000, .slope12⟩
end EQVST

namespace EQVST

/-! ## Helper lemmas -/

/-- Bypass flag of stage `i` after `updateCutFilter`. -/
theorem updateCutFilter_stage_bypassed
    (filter : CutFilter) (coefficients : Fin 4 → Coeffs) (slope : Slope) (i : Fin 4) :
    ((updateCutFilter filter coefficients slope).stage i).bypassed
      = decide (slope.toNat < i.val) := by
  cases slope <;> fin_cases i <;>
    simp [updateCutFilter, updateFilter, CutFilter.stage, CutFilter.setStageCoeffs,
      CutFilter.setStageBypassed, Slope.toNat]

/-- Coefficient values of stage `i` after `updateCutFilter`. -/
theorem updateCutFilter_stage_coeffs
    (filter : CutFilter) (coefficients : Fin 4 → Coeffs) (slope : Slope) (i : Fin 4) :
    ((updateCutFilter filter coefficients slope).stage i).coeffs
      = (if i.val ≤ slope.toNat then coefficients i else (filter.stage i).coeffs) := by
  cases slope <;> fin_cases i <;>
    simp [updateCutFilter, updateFilter, CutFilter.stage, CutFilter.setStageCoeffs,
      CutFilter.setStageBypassed, Slope.toNat]

/-- Filter state registers of stage `i` are untouched by
`updateCutFilter`. -/
theorem updateCutFilter_stage_state
    (filter : CutFilter) (coefficients : Fin 4 → Coeffs) (slope : Slope) (i : Fin 4) :
    ((updateCutFilter filter coefficients slope).stage i).s1 = (filter.stage i).s1
    ∧ ((updateCutFilter filter coefficients slope).stage i).s2 = (filter.stage i).s2 := by
  cases slope <;> fin_cases i <;>
    simp [updateCutFilter, updateFilter, CutFilter.stage, CutFilter.setStageCoeffs,
      CutFilter.setStageBypassed, Slope.toNat]

/-- Shape of the left chain after one update cycle. -/
theorem updateFilters_leftChain (lib : Lib) (p : Processor) :
    (updateFilters lib p).leftChain =
      { lowCut := updateCutFilter p.leftChain.lowCut
          (lib.designHighpass p.params.lowCutFreq p.sampleRate
            ((p.params.lowCutSlope.toNat + 1) * 2)) p.params.lowCutSlope
        peak := { p.leftChain.peak with
          coeffs := makePeakFilter lib p.params p.sampleRate }
        highCut := updateCutFilter p.leftChain.highCut
          (lib.designLowpass p.params.highCutFreq p.sampleRate
            ((p.params.highCutSlope.toNat + 1) * 2)) p.params.highCutSlope } := rfl

/-- Shape of the right chain after one update cycle. -/
theorem updateFilters_rightChain (lib : Lib) (p : Processor) :
    (updateFilters lib p).rightChain =
      { lowCut := updateCutFilter p.rightChain.lowCut
          (lib.designHighpass p.params.lowCutFreq p.sampleRate
            ((p.params.lowCutSlope.toNat + 1) * 2)) p.params.lowCutSlope
        peak := { p.rightChain.peak with
          coeffs := makePeakFilter lib p.params p.sampleRate }
        highCut := updateCutFilter p.rightChain.highCut
          (lib.designLowpass p.params.highCutFreq p.sampleRate
            ((p.params.highCutSlope.toNat + 1) * 2)) p.params.highCutSlope } := rfl

/-- Reconfiguring two matching cut filters with the same coefficient
array and slope keeps them matching. -/
theorem updateCutFilter_match (a b : CutFilter) (coefficients : Fin 4 → Coeffs)
    (slope : Slope) (h : cutFiltersMatch a b) :
    cutFiltersMatch (updateCutFilter a coefficients slope)
      (updateCutFilter b coefficients slope) := by
  intro i
  rw [updateCutFilter_stage_bypassed, updateCutFilter_stage_bypassed,
    updateCutFilter_stage_coeffs, updateCutFilter_stage_coeffs]
  refine ⟨?_, rfl⟩
  split_ifs with hi
  · rfl
  · exact (h i).1

end EQVST

namespace EQVST

/-- **C1.** For cut slope `N = slope + 1 ∈ {1,2,3,4}`, after
`updateCutFilter` exactly the first `N` stages are enabled, stage `i < N`
holding coefficient set `i` in cascade order, and stages `N..3` are
bypassed (with their previous coefficient values untouched). -/
theorem updateCutFilter_enables_first_slope_stages
    (filter : CutFilter) (coefficients : Fin 4 → Coeffs) (slope : Slope) (i : Fin 4) :
    ((updateCutFilter filter coefficients slope).stage i).bypassed
        = decide (slope.toNat < i.val)
    ∧ ((updateCutFilter filter coefficients slope).stage i).coeffs
        = (if i.val ≤ slope.toNat then coefficients i else (filter.stage i).coeffs) := by
  cases slope <;> fin_cases i <;>
    simp [updateCutFilter, updateFilter, CutFilter.stage, CutFilter.setStageCoeffs,
      CutFilter.setStageBypassed, Slope.toNat]



end EQVST

namespace EQVST

/-- **C2.** One update cycle (`updateFilters`: low cut, high cut,
peak) preserves stereo symmetry: if the left and right chains agree on
every stage's coefficient set and bypass flag before the cycle, they
agree on all of them afterwards — each coefficient set is computed
once and installed into both chains. -/
theorem updateFilters_preserves_stereo_symmetry (lib : Lib) (p : Processor)
    (h : chainsSymmetric p.leftChain p.rightChain) :
    chainsSymmetric (updateFilters lib p).leftChain (updateFilters lib p).rightChain := by
  obtain ⟨hpc, hpb, hlo, hhi⟩ := h
  rw [updateFilters_leftChain, updateFilters_rightChain]
  exact ⟨rfl, hpb, updateCutFilter_match _ _ _ _ hlo, updateCutFilter_match _ _ _ _ hhi⟩

/-- Witness for C2 at the default processor state and a concrete
library instance. -/
theorem updateFilters_preserves_stereo_symmetry_witness :
    chainsSymmetric defaultProcessor.leftChain defaultProcessor.rightChain
    ∧ chainsSymmetric (updateFilters constLib defaultProcessor).leftChain
        (updateFilters constLib defaultProcessor).rightChain :=
  ⟨by decide,
   updateFilters_preserves_stereo_symmetry constLib defaultProcessor (by decide)⟩

/-- **C4, counterexample.** The claim says that with sample rate `0`
the update cycle skips coefficient computation and every stage retains
exactly the coefficient sets it held.  The code has no sample-rate
guard: at sample rate `0` the peak stage's coefficients are replaced
by freshly computed factory output (here a library instance producing
`⟨2,0,0,0,0⟩`, while the stage held `⟨1,0,0,0,0⟩`). -/
theorem updateFilters_zero_sampleRate_recomputes :
    (updateFilters constLib
        { defaultProcessor with sampleRate := 0 }).leftChain.peak.coeffs
      ≠ ({ defaultProcessor with sampleRate := 0 } : Processor).leftChain.peak.coeffs := by
  decide

/-- **C4, amended.** `updateFilters` performs no sample-rate check:
even when the current sample rate is `0` or negative, the factory
design functions are invoked with that sample rate and their results
are installed into the chains (shown for the left chain's peak stage
and first low-cut/high-cut stages). -/
theorem updateFilters_no_sampleRate_guard (lib : Lib) (p : Processor)
    (_h : p.sampleRate ≤ 0) :
    (updateFilters lib p).leftChain.peak.coeffs
        = makePeakFilter lib p.params p.sampleRate
    ∧ ((updateFilters lib p).leftChain.lowCut.stage 0).coeffs
        = makeLowCutFilter lib p.params p.sampleRate 0
    ∧ ((updateFilters lib p).leftChain.highCut.stage 0).coeffs
        = makeHighCutFilter lib p.params p.sampleRate 0 := by
  rw [updateFilters_leftChain]
  refine ⟨rfl, ?_, ?_⟩ <;>
    rw [updateCutFilter_stage_coeffs] <;>
      simp [makeLowCutFilter, makeHighCutFilter]

/-- Witness for the amended C4 at sample rate `0`. -/
theorem updateFilters_no_sampleRate_guard_witness :
    ({ defaultProcessor with sampleRate := 0 } : Processor).sampleRate ≤ 0
    ∧ ((updateFilters constLib { defaultProcessor with sampleRate := 0 }).leftChain.peak.coeffs
        = makePeakFilter constLib
            ({ defaultProcessor with sampleRate := 0 } : Processor).params
            ({ defaultProcessor with sampleRate := 0 } : Processor).sampleRate
      ∧ ((updateFilters constLib
            { defaultProcessor with sampleRate := 0 }).leftChain.lowCut.stage 0).coeffs
        = makeLowCutFilter constLib
            ({ defaultProcessor with sampleRate := 0 } : Processor).params
            ({ defaultProcessor with sampleRate := 0 } : Processor).sampleRate 0
      ∧ ((updateFilters constLib
            { defaultProcessor with sampleRate := 0 }).leftChain.highCut.stage 0).coeffs
        = makeHighCutFilter constLib
            ({ defaultProcessor with sampleRate := 0 } : Processor).params
            ({ defaultProcessor with sampleRate := 0 } : Processor).sampleRate 0) :=
  ⟨by decide,
   updateFilters_no_sampleRate_guard constLib
     { defaultProcessor with sampleRate := 0 } (by decide)⟩

/-- **C5, counterexample.** The claim says the coefficient factory
clamps a requested frequency at/beyond Nyquist to a safe margin below
Nyquist before design.  It does not: with a library instance that
records the frequency argument it receives, a 20 kHz request at a
20 kHz sample rate (Nyquist = 10 kHz) reaches the design routines as
20 kHz, unclamped, in `makePeakFilter`, `makeLowCutFilter` and
`makeHighCutFilter` alike. -/
theorem factory_no_nyquist_clamp_counterexample :
    (makePeakFilter probeLib nyquistSettings 20000).b0 = 20000
    ∧ ¬ (makePeakFilter probeLib nyquistSettings 20000).b0 < 20000 / 2
    ∧ (makeLowCutFilter probeLib nyquistSettings 20000 0).b0 = 20000
    ∧ (makeHighCutFilter probeLib nyquistSettings 20000 0).b0 = 20000 := by
  refine ⟨rfl, ?_, rfl, rfl⟩
  norm_num [makePeakFilter, probeLib, nyquistSettings]

/-- **C5, amended.** The factory wrappers perform no frequency
clamping at all: the requested peak/low-cut/high-cut frequency is
passed to the library design routines unmodified, for every snapshot
and sample rate (hence also when it is at or beyond Nyquist);
avoidance of NaN/Inf is left to upstream parameter-range limits and
the library design routines. -/
theorem factory_passes_frequency_unclamped
    (chainSettings : ChainSettings) (sampleRate : ℚ) :
    (makePeakFilter probeLib chainSettings sampleRate).b0 = chainSettings.peakFreq
    ∧ (makeLowCutFilter probeLib chainSettings sampleRate 0).b0
        = chainSettings.lowCutFreq
    ∧ (makeHighCutFilter probeLib chainSettings sampleRate 0).b0
        = chainSettings.highCutFreq :=
  ⟨rfl, rfl, rfl⟩

end EQVST

namespace EQVST

/-! ## State restore (`setStateInformation`) -/

/-- `EQtutAudioProcessor::setStateInformation`:
`juce::ValueTree::readFromData` is a library parser, modelled as an
abstract function from the raw byte sequence to the parameter values
carried by the tree, returning `none` exactly when the parsed tree is
invalid (`tree.isValid()` false).  On an invalid tree nothing happens;
on a valid tree `apvts.replaceState` installs the parsed parameters
and `updateFilters()` recomputes all coefficients. -/
def setStateInformation (lib : Lib) (readTree : List ℕ → Option ChainSettings)
    (data : List ℕ) (p : Processor) : Processor :=
  match readTree data with
  | none => p
  | some t => updateFilters lib { p with params := t }

end EQVST

namespace EQVST

/-- **C10.** If the byte sequence does not parse as a valid value
tree, `setStateInformation` is a no-op: the processor state — its
parameter values and every coefficient set and bypass flag of both
chains — is returned exactly as it was.  The parameter state is
replaced and the filters recomputed precisely when the parsed tree is
valid. -/
theorem setStateInformation_invalid_is_noop (lib : Lib)
    (readTree : List ℕ → Option ChainSettings) (data : List ℕ) (p : Processor) :
    (readTree data = none → setStateInformation lib readTree data p = p)
    ∧ (∀ t, readTree data = some t →
        setStateInformation lib readTree data p
          = updateFilters lib { p with params := t }) := by
  constructor
  · intro h
    simp [setStateInformation, h]
  · intro t h
    simp [setStateInformation, h]

/-- Witness for C10: a failing parse leaves the default processor
untouched; a successful parse installs the parsed parameters and
recomputes the filters. -/
theorem setStateInformation_invalid_is_noop_witness :
    setStateInformation constLib (fun _ => none) [0, 1] defaultProcessor
      = defaultProcessor
    ∧ setStateInformation constLib (fun _ => some nyquistSettings) [0, 1]
        defaultProcessor
      = updateFilters constLib { defaultProcessor with params := nyquistSettings } :=
  ⟨(setStateInformation_invalid_is_noop constLib (fun _ => none) [0, 1]
      defaultProcessor).1 rfl,
   (setStateInformation_invalid_is_noop constLib (fun _ => some nyquistSettings) [0, 1]
      defaultProcessor).2 nyquistSettings rfl⟩

end EQVST

namespace EQVST

/-! ## Signal path: biquad processing, chains, processBlock -/

/-- One sample through a 2nd-order section
(`juce::dsp::IIR::Filter::processSample`, transposed direct form II):
returns the output sample and the two updated state registers. -/
def biquadStep (c : Coeffs) (s1 s2 x : ℚ) : ℚ × ℚ × ℚ :=
  let y := c.b0 * x + s1
  (y, c.b1 * x - c.a1 * y + s2, c.b2 * x - c.a2 * y)

/-- A whole block through one 2nd-order section, state threaded
sample by sample (`Filter::process` over a replacing context). -/
def filterProcessBlock (c : Coeffs) : ℚ → ℚ → List ℚ → List ℚ × ℚ × ℚ
  | s1, s2, [] => ([], s1, s2)
  | s1, s2, x :: xs =>
    let step := biquadStep c s1 s2 x
    let rest := filterProcessBlock c step.2.1 step.2.2 xs
    (step.1 :: rest.1, rest.2)

/-- One cut stage over a block: a bypassed stage passes the block
through untouched (the `ProcessorChain` skips it); an enabled stage
filters it and keeps its updated state. -/
def CutStage.processBlock (st : CutStage) (xs : List ℚ) : List ℚ × CutStage :=
  if st.bypassed then (xs, st)
  else
    let r := filterProcessBlock st.coeffs st.s1 st.s2 xs
    (r.1, { st with s1 := r.2.1, s2 := r.2.2 })

/-- A `CutFilter` over a block: the four stages in cascade order. -/
def CutFilter.processBlock (c : CutFilter) (xs : List ℚ) : List ℚ × CutFilter :=
  let r0 := c.stage0.processBlock xs
  let r1 := c.stage1.processBlock r0.1
  let r2 := c.stage2.processBlock r1.1
  let r3 := c.stage3.processBlock r2.1
  (r3.1, ⟨r0.2, r1.2, r2.2, r3.2⟩)

/-- The peak stage over a block (chain-level bypass flag honoured,
though the processor never sets it). -/
def PeakStage.processBlock (st : PeakStage) (xs : List ℚ) : List ℚ × PeakStage :=
  if st.bypassed then (xs, st)
  else
    let r := filterProcessBlock st.coeffs st.s1 st.s2 xs
    (r.1, { st with s1 := r.2.1, s2 := r.2.2 })

/-- A `MonoChain` over a block: `LowCut`, then `Peak`, then `HighCut`
(`juce::dsp::ProcessorChain::process`). -/
def MonoChain.processBlock (m : MonoChain) (xs : List ℚ) : List ℚ × MonoChain :=
  let rl := m.lowCut.processBlock xs
  let rp := m.peak.processBlock rl.1
  let rh := m.highCut.processBlock rp.1
  (rh.1, ⟨rl.2, rp.2, rh.2⟩)

/-- `EQtutAudioProcessor::processBlock(buffer, midi)`: the buffer is a
list of channels.  The clearing loop over output channels beyond the
inputs is vacuous in this model (input and output channel counts are
the buffer's channel count).  The callback runs `updateFilters()`,
then wraps the buffer and takes `getSingleChannelBlock(0)` and
`getSingleChannelBlock(1)` — in range only when the buffer has at
least two channels, which `none` models as the out-of-range access —
and processes them in place through the left and right chains. -/
def processBlock (lib : Lib) (p : Processor) (buffer : List (List ℚ)) :
    Option (List (List ℚ) × Processor) :=
  let p1 := updateFilters lib p
  match buffer with
  | ch0 :: ch1 :: rest =>
    let rl := p1.leftChain.processBlock ch0
    let rr := p1.rightChain.processBlock ch1
    some (rl.1 :: rr.1 :: rest, { p1 with leftChain := rl.2, rightChain := rr.2 })
  | _ => none

/-- `Filter::prepare`/`reset`: clear a cut stage's state registers. -/
def CutStage.resetState (st : CutStage) : CutStage := { st with s1 := 0, s2 := 0 }

/-- Reset all four stages of a cut filter. -/
def CutFilter.resetState (c : CutFilter) : CutFilter :=
  ⟨c.stage0.resetState, c.stage1.resetState, c.stage2.resetState, c.stage3.resetState⟩

/-- Reset every stage of a mono chain. -/
def MonoChain.resetState (m : MonoChain) : MonoChain :=
  ⟨m.lowCut.resetState, { m.peak with s1 := 0, s2 := 0 }, m.highCut.resetState⟩

/-- `EQtutAudioProcessor::prepareToPlay(sampleRate, samplesPerBlock)`:
the host has supplied the new sample rate; `leftChain.prepare(spec)`
and `rightChain.prepare(spec)` reset all filter internal state, and
one `updateFilters()` cycle runs. -/
def prepareToPlay (lib : Lib) (sampleRate : ℚ) (p : Processor) : Processor :=
  updateFilters lib
    { p with
      sampleRate := sampleRate
      leftChain := p.leftChain.resetState
      rightChain := p.rightChain.resetState }

/-- Modelled from the spec (§4.3 update protocol and §2 data flow,
quoted by C6): capture one parameter snapshot; compute low-cut
coefficients and reconfigure both low-cut chains; then high-cut; then
peak; and only then filter the block through the left and right
chains.  Defined for comparison with `processBlock`. -/
def specUpdateThenProcess (lib : Lib) (p : Processor) (buffer : List (List ℚ)) :
    Option (List (List ℚ) × Processor) :=
  let snapshot := getChainSettings p
  let afterLowCut := updateLowCutFilters lib snapshot p
  let afterHighCut := updateHighCutFilters lib snapshot afterLowCut
  let afterPeak := updatePeakFilter lib snapshot afterHighCut
  match buffer with
  | ch0 :: ch1 :: rest =>
    let rl := afterPeak.leftChain.processBlock ch0
    let rr := afterPeak.rightChain.processBlock ch1
    some (rl.1 :: rr.1 :: rest,
      { afterPeak with leftChain := rl.2, rightChain := rr.2 })
  | _ => none

/-! ## Bus layouts -/

/-- The channel sets distinguished by `isBusesLayoutSupported`. -/
inductive ChannelSet where
  | mono
  | stereo
  | other
deriving DecidableEq, Repr

/-- A host bus layout: main input and main output channel sets. -/
structure BusesLayout where
  mainInput : ChannelSet
  mainOutput : ChannelSet
deriving DecidableEq, Repr

/-- `EQtutAudioProcessor::isBusesLayoutSupported`: rejects a main
output that is neither mono nor stereo, rejects mismatched input and
output, accepts everything else — including mono/mono. -/
def isBusesLayoutSupported (layouts : BusesLayout) : Bool :=
  if layouts.mainOutput ≠ ChannelSet.mono ∧ layouts.mainOutput ≠ ChannelSet.stereo then
    false
  else if layouts.mainOutput ≠ layouts.mainInput then
    false
  else
    true

end EQVST

namespace EQVST

/-- All four stages of a cut filter have zeroed state registers. -/
def CutFilter.zeroState (c : CutFilter) : Prop :=
  (c.stage0.s1 = 0 ∧ c.stage0.s2 = 0) ∧ (c.stage1.s1 = 0 ∧ c.stage1.s2 = 0)
  ∧ (c.stage2.s1 = 0 ∧ c.stage2.s2 = 0) ∧ (c.stage3.s1 = 0 ∧ c.stage3.s2 = 0)

/-- Every stage of a mono chain has zeroed state registers (the state
after `prepare`). -/
def MonoChain.zeroState (m : MonoChain) : Prop :=
  m.lowCut.zeroState ∧ (m.peak.s1 = 0 ∧ m.peak.s2 = 0) ∧ m.highCut.zeroState

end EQVST

namespace EQVST

/-! ## Zero-state lemmas and the silence invariant -/

/-- A 2nd-order section with zero state maps a zero block to a zero
block and stays at zero state. -/
theorem filterProcessBlock_zero (c : Coeffs) (n : ℕ) :
    filterProcessBlock c 0 0 (List.replicate n 0) = (List.replicate n 0, 0, 0) := by
  induction n with
  | zero => rfl
  | succ k ih => simp [List.replicate_succ, filterProcessBlock, biquadStep, ih]

/-- A cut stage with zero state registers is the identity on a zero
block. -/
theorem cutStage_processBlock_zero (st : CutStage) (h1 : st.s1 = 0) (h2 : st.s2 = 0)
    (n : ℕ) : st.processBlock (List.replicate n 0) = (List.replicate n 0, st) := by
  obtain ⟨c, b, s1, s2⟩ := st
  dsimp at h1 h2
  subst h1
  subst h2
  cases b <;> simp [CutStage.processBlock, filterProcessBlock_zero]

/-- A cut filter with zero state is the identity on a zero block. -/
theorem cutFilter_processBlock_zero (c : CutFilter) (h : c.zeroState) (n : ℕ) :
    c.processBlock (List.replicate n 0) = (List.replicate n 0, c) := by
  obtain ⟨⟨h01, h02⟩, ⟨h11, h12⟩, ⟨h21, h22⟩, ⟨h31, h32⟩⟩ := h
  simp [CutFilter.processBlock,
    cutStage_processBlock_zero _ h01 h02, cutStage_processBlock_zero _ h11 h12,
    cutStage_processBlock_zero _ h21 h22, cutStage_processBlock_zero _ h31 h32]

/-- The peak stage with zero state registers is the identity on a
zero block. -/
theorem peakStage_processBlock_zero (st : PeakStage) (h1 : st.s1 = 0) (h2 : st.s2 = 0)
    (n : ℕ) : st.processBlock (List.replicate n 0) = (List.replicate n 0, st) := by
  obtain ⟨c, b, s1, s2⟩ := st
  dsimp at h1 h2
  subst h1
  subst h2
  cases b <;> simp [PeakStage.processBlock, filterProcessBlock_zero]

/-- A mono chain with zero state is the identity on a zero block. -/
theorem monoChain_processBlock_zero (m : MonoChain) (h : m.zeroState) (n : ℕ) :
    m.processBlock (List.replicate n 0) = (List.replicate n 0, m) := by
  obtain ⟨hlo, ⟨hp1, hp2⟩, hhi⟩ := h
  simp [MonoChain.processBlock,
    cutFilter_processBlock_zero _ hlo, peakStage_processBlock_zero _ hp1 hp2,
    cutFilter_processBlock_zero _ hhi]

/-- `updateCutFilter` never touches the state registers. -/
theorem updateCutFilter_zeroState (f : CutFilter) (coefficients : Fin 4 → Coeffs)
    (slope : Slope) (h : f.zeroState) :
    (updateCutFilter f coefficients slope).zeroState := by
  cases slope <;>
    simpa [updateCutFilter, updateFilter, CutFilter.setStageCoeffs,
      CutFilter.setStageBypassed, CutFilter.zeroState] using h

/-- An update cycle never touches the state registers of either
chain. -/
theorem updateFilters_zeroState (lib : Lib) (p : Processor)
    (hl : p.leftChain.zeroState) (hr : p.rightChain.zeroState) :
    (updateFilters lib p).leftChain.zeroState
    ∧ (updateFilters lib p).rightChain.zeroState := by
  rw [updateFilters_leftChain, updateFilters_rightChain]
  obtain ⟨hl1, hl2, hl3⟩ := hl
  obtain ⟨hr1, hr2, hr3⟩ := hr
  exact ⟨⟨updateCutFilter_zeroState _ _ _ hl1, hl2, updateCutFilter_zeroState _ _ _ hl3⟩,
    ⟨updateCutFilter_zeroState _ _ _ hr1, hr2, updateCutFilter_zeroState _ _ _ hr3⟩⟩

/-- Resetting a chain leaves it in zero state. -/
theorem resetState_zeroState (m : MonoChain) : m.resetState.zeroState := by
  simp [MonoChain.resetState, CutFilter.resetState, CutStage.resetState,
    MonoChain.zeroState, CutFilter.zeroState]

/-- After `prepareToPlay`, both chains are in zero state. -/
theorem prepareToPlay_zeroState (lib : Lib) (sampleRate : ℚ) (p : Processor) :
    (prepareToPlay lib sampleRate p).leftChain.zeroState
    ∧ (prepareToPlay lib sampleRate p).rightChain.zeroState := by
  unfold prepareToPlay
  exact updateFilters_zeroState _ _ (resetState_zeroState _) (resetState_zeroState _)

/-- **C8.** Silence invariant: starting from a freshly prepared
processor (all filter history zeroed by `prepareToPlay`), processing
an all-zero stereo block through `processBlock` — with any library
design output, any snapshot and any slopes — yields an all-zero block
on both channels. -/
theorem processBlock_silence (lib : Lib) (p : Processor) (sampleRate : ℚ) (n : ℕ) :
    ∃ p2, processBlock lib (prepareToPlay lib sampleRate p)
        [List.replicate n 0, List.replicate n 0]
      = some ([List.replicate n 0, List.replicate n 0], p2) := by
  obtain ⟨hl, hr⟩ := prepareToPlay_zeroState lib sampleRate p
  obtain ⟨hl2, hr2⟩ := updateFilters_zeroState lib _ hl hr
  exact ⟨updateFilters lib (prepareToPlay lib sampleRate p), by
    simp [processBlock, monoChain_processBlock_zero _ hl2 n,
      monoChain_processBlock_zero _ hr2 n]⟩

/-- **C6.** `processBlock` is exactly the spec's update-then-process
cycle: one parameter snapshot is captured and all coefficient updates
are installed — low cut, then high cut, then peak — before any sample
is filtered, and the block is then processed through the left and
right chains of the *updated* processor. -/
theorem processBlock_updates_before_filtering (lib : Lib) (p : Processor)
    (buffer : List (List ℚ)) :
    processBlock lib p buffer = specUpdateThenProcess lib p buffer
    ∧ ∀ ch0 ch1 rest, processBlock lib p (ch0 :: ch1 :: rest)
        = some (((updateFilters lib p).leftChain.processBlock ch0).1
            :: ((updateFilters lib p).rightChain.processBlock ch1).1 :: rest,
          { updateFilters lib p with
              leftChain := ((updateFilters lib p).leftChain.processBlock ch0).2
              rightChain := ((updateFilters lib p).rightChain.processBlock ch1).2 }) :=
  ⟨rfl, fun _ _ _ => rfl⟩

/-- **C9.** `processBlock` unconditionally takes single-channel views
of channels 0 and 1, so it is in range only when the buffer carries at
least two channels (`none` models the out-of-range access on shorter
buffers) — even though `isBusesLayoutSupported` also accepts a
mono-in/mono-out layout, under which that precondition fails. -/
theorem processBlock_channel_indexing_needs_stereo :
    isBusesLayoutSupported ⟨ChannelSet.mono, ChannelSet.mono⟩ = true
    ∧ (∀ (lib : Lib) (p : Processor), processBlock lib p [] = none)
    ∧ (∀ (lib : Lib) (p : Processor) (ch : List ℚ), processBlock lib p [ch] = none)
    ∧ (∀ (lib : Lib) (p : Processor) (ch0 ch1 : List ℚ) (rest : List (List ℚ)),
        (processBlock lib p (ch0 :: ch1 :: rest)).isSome = true) :=
  ⟨rfl, fun _ _ => rfl, fun _ _ _ => rfl, fun _ _ _ _ _ => rfl⟩

end EQVST

namespace EQVST

/-! ## The sample queue (`Fifo<T>` over `juce::AbstractFifo{30}`) -/

/-- The repository's `Fifo<T>`: a fixed array of `Capacity = 30`
slots managed by a `juce::AbstractFifo{30}`.  `validStart` /
`validEnd` are the AbstractFifo read/write cursors, both kept in
`[0, 30)`; `buffers` always has length 30. -/
structure Fifo (T : Type) where
  buffers : List T
  validStart : ℕ
  validEnd : ℕ
deriving DecidableEq, Repr

/-- `static constexpr int Capacity = 30`. -/
def Fifo.capacity : ℕ := 30

/-- `AbstractFifo::getNumReady()`:
`ve >= vs ? ve - vs : bufferSize - (vs - ve)`. -/
def Fifo.numReady {T : Type} (f : Fifo T) : ℕ :=
  if f.validStart ≤ f.validEnd then f.validEnd - f.validStart
  else Fifo.capacity - (f.validStart - f.validEnd)

/-- `Fifo::push`: `fifo.write(1)` prepares a write of
`min(1, freeSpace - 1)` items, where `freeSpace = 30 - numReady` —
the AbstractFifo reserves one slot, so a push succeeds only while
fewer than 29 items are unread.  On success the item is stored at
`validEnd` and the write cursor advances modulo 30; on failure the
queue is untouched and `false` is returned. -/
def Fifo.push {T : Type} (f : Fifo T) (t : T) : Bool × Fifo T :=
  if 0 < Fifo.capacity - f.numReady - 1 then
    (true, { f with
      buffers := f.buffers.set f.validEnd t
      validEnd := (f.validEnd + 1) % Fifo.capacity })
  else
    (false, f)

/-- `Fifo::pull(T& t)`: `fifo.read(1)` prepares a read of
`min(1, numReady)` items.  On success the slot at `validStart` is
copied into `t` and the read cursor advances modulo 30; on failure
`t` and the queue are untouched and `false` is returned. -/
def Fifo.pull {T : Type} (f : Fifo T) (t : T) : Bool × T × Fifo T :=
  if 0 < f.numReady then
    (true, f.buffers.getD f.validStart t,
      { f with validStart := (f.validStart + 1) % Fifo.capacity })
  else
    (false, t, f)

/-- `Fifo::getNumAvailableForReading()`. -/
def Fifo.getNumAvailableForReading {T : Type} (f : Fifo T) : ℕ := f.numReady

/-- A freshly prepared queue: every slot holds the cleared element
(`prepare` clears all 30 backing buffers) and both cursors are 0. -/
def Fifo.fresh {T : Type} (init : T) : Fifo T :=
  ⟨List.replicate Fifo.capacity init, 0, 0⟩

/-- Push a list of items one by one, collecting each push's result. -/
def Fifo.pushList {T : Type} (f : Fifo T) : List T → List Bool × Fifo T
  | [] => ([], f)
  | x :: xs =>
    let r := f.push x
    let rest := r.2.pushList xs
    (r.1 :: rest.1, rest.2)

/-- Pull `n` times, collecting each pull's result and output value
(`dummy` plays the role of the caller's out-variable). -/
def Fifo.pullN {T : Type} (dummy : T) : Fifo T → ℕ → List (Bool × T) × Fifo T
  | f, 0 => ([], f)
  | f, n + 1 =>
    let r := f.pull dummy
    let rest := Fifo.pullN dummy r.2.2 n
    ((r.1, r.2.1) :: rest.1, rest.2)

end EQVST

namespace EQVST

/-! ## Fifo lemmas -/

/-- A push into a queue in the no-wrap regime `validStart = 0`,
`validEnd = e ≤ 28` succeeds and stores at slot `e`. -/
theorem Fifo.push_inRange {T : Type} (buf : List T) (e : ℕ) (x : T) (he : e ≤ 28) :
    Fifo.push ⟨buf, 0, e⟩ x = (true, ⟨buf.set e x, 0, e + 1⟩) := by
  have h1 : (Fifo.mk buf 0 e : Fifo T).numReady = e := by
    simp [Fifo.numReady]
  unfold Fifo.push
  rw [h1]
  rw [if_pos (by unfold Fifo.capacity; omega)]
  simp [Fifo.capacity, Nat.mod_eq_of_lt (show e + 1 < 30 by omega)]

/-- Pushing a list that keeps the queue within 29 unread items
succeeds throughout and lays the items out contiguously from slot
`e`. -/
theorem Fifo.pushList_inRange {T : Type} :
    ∀ (xs : List T) (buf : List T) (e : ℕ), buf.length = 30 → e + xs.length ≤ 29 →
      Fifo.pushList ⟨buf, 0, e⟩ xs
        = (List.replicate xs.length true,
           ⟨buf.take e ++ xs ++ buf.drop (e + xs.length), 0, e + xs.length⟩)
  | [], buf, e, hlen, hcap => by
    simp [Fifo.pushList]
  | x :: xs, buf, e, hlen, hcap => by
    have he : e ≤ 28 := by simp at hcap; omega
    have helt : e < buf.length := by omega
    have hih := Fifo.pushList_inRange xs (buf.set e x) (e + 1)
      (by simp [hlen]) (by simp at hcap ⊢; omega)
    have hset : buf.set e x = (buf.take e ++ [x]) ++ buf.drop (e + 1) := by
      rw [List.set_eq_take_cons_drop x helt]
      simp
    have hlenfront : (buf.take e ++ [x]).length = e + 1 := by
      simp [List.length_take]
      omega
    have htake : (buf.set e x).take (e + 1) = buf.take e ++ [x] := by
      rw [hset, List.take_left' hlenfront]
    have hdrop : (buf.set e x).drop (e + 1 + xs.length) = buf.drop (e + 1 + xs.length) := by
      rw [hset]
      rw [show e + 1 + xs.length = (buf.take e ++ [x]).length + xs.length by omega]
      rw [List.drop_append]
      rw [List.drop_drop]
      congr 1
      omega
    unfold Fifo.pushList
    simp only [Fifo.push_inRange buf e x he, hih, htake, hdrop, List.length_cons]
    rw [show e + (xs.length + 1) = e + 1 + xs.length from by omega]
    simp [List.replicate_succ, List.append_assoc]

/-- A pull from a queue in the no-wrap regime succeeds and reads slot
`validStart`. -/
theorem Fifo.pull_inRange {T : Type} (buf : List T) (s e : ℕ) (dummy : T)
    (hs : s < e) (he : e ≤ 29) :
    Fifo.pull ⟨buf, s, e⟩ dummy = (true, buf.getD s dummy, ⟨buf, s + 1, e⟩) := by
  have h1 : (Fifo.mk buf s e : Fifo T).numReady = e - s := by
    simp [Fifo.numReady]
    omega
  unfold Fifo.pull
  rw [h1]
  rw [if_pos (by omega)]
  simp [Fifo.capacity, Nat.mod_eq_of_lt (show s + 1 < 30 by omega)]

/-- Pulling all `n` ready items from a no-wrap queue succeeds
throughout and yields slots `s, s+1, …, s+n-1` in order. -/
theorem Fifo.pullN_inRange {T : Type} (dummy : T) :
    ∀ (n s : ℕ) (buf : List T), s + n ≤ 29 →
      Fifo.pullN dummy ⟨buf, s, s + n⟩ n
        = ((List.range n).map (fun j => (true, buf.getD (s + j) dummy)),
           ⟨buf, s + n, s + n⟩)
  | 0, s, buf, hcap => by
    simp [Fifo.pullN]
  | n + 1, s, buf, hcap => by
    have hih := Fifo.pullN_inRange dummy n (s + 1) buf (by omega)
    unfold Fifo.pullN
    rw [show s + (n + 1) = s + 1 + n by omega]
    simp only [Fifo.pull_inRange buf s (s + 1 + n) dummy (by omega) (by omega), hih]
    congr 1
    rw [List.range_succ_eq_map]
    simp only [List.map_cons, List.map_map, Nat.add_zero]
    congr 1
    apply List.map_congr_left
    intro j hj
    have hsj : s + 1 + j = s + (j + 1) := by omega
    simp [Function.comp, hsj]

/-- A push onto a queue already holding 29 unread items fails and
leaves the queue untouched. -/
theorem Fifo.push_full {T : Type} (f : Fifo T) (x : T) (h : f.numReady = 29) :
    f.push x = (false, f) := by
  unfold Fifo.push
  rw [h]
  rfl

/-- A pull from an empty queue fails, leaving the queue and the
caller's out-variable untouched. -/
theorem Fifo.pull_empty {T : Type} (f : Fifo T) (t : T) (h : f.numReady = 0) :
    f.pull t = (false, t, f) := by
  unfold Fifo.pull
  rw [h]
  rfl

end EQVST

namespace EQVST

/-- **C3, counterexample.** The claim says pushing any `K ≤ 30` items
into the fresh queue has every push return `true`.  The backing
`AbstractFifo` reserves one slot, so the queue holds at most 29 unread
items: pushing 30 items from empty succeeds 29 times and the 30th
push returns `false`. -/
theorem fifo_thirtieth_push_fails :
    ((Fifo.fresh (0 : ℕ)).pushList (List.replicate 30 7)).1
      = List.replicate 29 true ++ [false]
    ∧ ((Fifo.fresh (0 : ℕ)).pushList (List.replicate 30 7)).1
      ≠ List.replicate 30 true := by
  decide

/-- **C3, amended.** The queue's effective capacity is 29 (the
`AbstractFifo` of size 30 reserves one slot): from empty, pushing any
`K ≤ 29` items has every push succeed and pulling `K` times returns
exactly those items, each pull succeeding, in FIFO push order; a push
attempted while 29 items are unread returns `false` and leaves the
queue contents and cursors unchanged; and a pull on an empty queue
returns `false` and leaves the queue (and the caller's out-variable)
unchanged. -/
theorem fifo_roundtrip29 {T : Type} (xs : List T) (init dummy : T)
    (h : xs.length ≤ 29) :
    ((Fifo.fresh init).pushList xs).1 = List.replicate xs.length true
    ∧ (Fifo.pullN dummy ((Fifo.fresh init).pushList xs).2 xs.length).1
        = xs.map (fun x => (true, x))
    ∧ (∀ (f : Fifo T) (y : T), f.numReady = 29 → f.push y = (false, f))
    ∧ (∀ (f : Fifo T) (t : T), f.numReady = 0 → f.pull t = (false, t, f)) := by
  have hfresh : (Fifo.fresh init : Fifo T) = ⟨List.replicate 30 init, 0, 0⟩ := rfl
  have hlen30 : (List.replicate 30 init : List T).length = 30 := by simp
  have hpush := Fifo.pushList_inRange xs (List.replicate 30 init) 0 hlen30 (by omega)
  simp only [List.take_zero, List.nil_append, Nat.zero_add] at hpush
  refine ⟨?_, ?_, fun f y hf => Fifo.push_full f y hf,
    fun f t hf => Fifo.pull_empty f t hf⟩
  · rw [hfresh, hpush]
  · rw [hfresh, hpush]
    have hpull := Fifo.pullN_inRange dummy xs.length 0
      (xs ++ (List.replicate 30 init).drop xs.length) (by omega)
    simp only [Nat.zero_add] at hpull
    rw [hpull]
    apply List.ext_getElem
    · simp
    · intro i h1 h2
      simp only [List.getElem_map, List.getElem_range]
      have hi : i < xs.length := by simp at h1; omega
      congr 1
      rw [List.getD_append _ _ _ _ hi]
      exact List.getD_eq_getElem _ _ hi

/-- Witness for the amended C3 at a concrete three-element queue. -/
theorem fifo_roundtrip29_witness :
    ([5, 6, 7] : List ℕ).length ≤ 29
    ∧ ((Fifo.fresh (0 : ℕ)).pushList [5, 6, 7]).1
        = List.replicate ([5, 6, 7] : List ℕ).length true
    ∧ (Fifo.pullN 0 ((Fifo.fresh (0 : ℕ)).pushList [5, 6, 7]).2
        ([5, 6, 7] : List ℕ).length).1
        = ([5, 6, 7] : List ℕ).map (fun x => (true, x))
    ∧ (Fifo.mk (List.replicate 30 (0 : ℕ)) 0 29).push 7
        = (false, Fifo.mk (List.replicate 30 (0 : ℕ)) 0 29)
    ∧ (Fifo.fresh (0 : ℕ)).pull 9 = (false, 9, Fifo.fresh 0) :=
  have h := fifo_roundtrip29 (T := ℕ) [5, 6, 7] 0 0 (by decide)
  ⟨by decide, h.1, h.2.1,
    h.2.2.1 ⟨List.replicate 30 0, 0, 29⟩ 7 (by decide),
    h.2.2.2 (Fifo.fresh 0) 9 (by decide)⟩

end EQVST

namespace EQVST

/-! ## SingleChannelSampleFifo -/

/-- `SingleChannelSampleFifo<AudioBuffer<float>>` after
`prepare(bufferSize)`: `fifoIndex` is the write position into
`bufferToFill` (a one-channel block), and `audioBufferFifo` is the
block queue.  Samples are rationals; a block is a `List ℚ`. -/
structure SingleChannelSampleFifo where
  fifoIndex : ℕ
  audioBufferFifo : Fifo (List ℚ)
  bufferToFill : List ℚ
deriving DecidableEq, Repr

/-- `pushNextSampleIntoFifo(sample)`: if the block is full, push it
onto the queue (result ignored) and reset the index; then write the
sample at `fifoIndex` and increment.  Note the completed block is
pushed only when the *next* sample arrives. -/
def SingleChannelSampleFifo.pushNextSampleIntoFifo
    (s : SingleChannelSampleFifo) (sample : ℚ) : SingleChannelSampleFifo :=
  let s :=
    if s.fifoIndex = s.bufferToFill.length then
      { s with
        audioBufferFifo := (s.audioBufferFifo.push s.bufferToFill).2
        fifoIndex := 0 }
    else s
  { s with
    bufferToFill := s.bufferToFill.set s.fifoIndex sample
    fifoIndex := s.fifoIndex + 1 }

/-- `prepare(bufferSize)`: a cleared one-channel block of
`bufferSize` samples, index 0, and a queue of cleared blocks. -/
def SingleChannelSampleFifo.prepare (bufferSize : ℕ) : SingleChannelSampleFifo :=
  ⟨0, Fifo.fresh (List.replicate bufferSize 0), List.replicate bufferSize 0⟩

/-- `update(buffer)`: feed the channel's samples one at a time. -/
def SingleChannelSampleFifo.feed (s : SingleChannelSampleFifo) (xs : List ℚ) :
    SingleChannelSampleFifo :=
  xs.foldl SingleChannelSampleFifo.pushNextSampleIntoFifo s

/-- The first `q` consecutive `B`-sample chunks of the stream `t`. -/
def chunksOf (B q : ℕ) (t : List ℚ) : List (List ℚ) :=
  (List.range q).map (fun i => (t.drop (i * B)).take B)

/-- How many completed blocks have been pushed after the stream `t`
has been fed: the push of a completed block is triggered by the
arrival of the sample after it, so after `n ≥ 1` samples this is
`(n - 1) / B`. -/
def completedBlocks (B : ℕ) (t : List ℚ) : ℕ :=
  if t.length = 0 then 0 else (t.length - 1) / B

/-- The state a `SingleChannelSampleFifo` prepared with block size
`B` reaches after being fed exactly the stream `t`: the block queue
is the fold of pushes of the completed chunks, and `bufferToFill`
holds the current partial chunk below `fifoIndex`. -/
def SingleChannelSampleFifo.tracks (s : SingleChannelSampleFifo) (B : ℕ)
    (t : List ℚ) : Prop :=
  s.bufferToFill.length = B
  ∧ s.fifoIndex = t.length - completedBlocks B t * B
  ∧ (∀ j < t.length - completedBlocks B t * B,
      s.bufferToFill.getD j 0 = t.getD (completedBlocks B t * B + j) 0)
  ∧ s.audioBufferFifo
      = (Fifo.pushList (Fifo.fresh (List.replicate B 0))
          (chunksOf B (completedBlocks B t) t)).2

end EQVST

namespace EQVST

/-! ## SingleChannelSampleFifo lemmas -/

/-- Pushing one more item after a list of pushes. -/
theorem Fifo.pushList_snd_append {T : Type} (l : List T) :
    ∀ (f : Fifo T) (x : T),
      (f.pushList (l ++ [x])).2 = ((f.pushList l).2.push x).2 := by
  induction l with
  | nil => intro f x; simp [Fifo.pushList]
  | cons y ys ih => intro f x; simp [Fifo.pushList, ih]

/-- Chunks wholly inside `t` are unaffected by appending a sample. -/
theorem chunksOf_append (B q : ℕ) (t : List ℚ) (a : ℚ) (h : q * B ≤ t.length) :
    chunksOf B q (t ++ [a]) = chunksOf B q t := by
  unfold chunksOf
  apply List.map_congr_left
  intro i hi
  have hiq : i < q := List.mem_range.mp hi
  have hle : i * B + B ≤ t.length := by
    calc i * B + B = (i + 1) * B := by ring
    _ ≤ q * B := Nat.mul_le_mul_right B (by omega)
    _ ≤ t.length := h
  rw [List.drop_append_of_le_length (by omega)]
  rw [List.take_append_of_le_length (by simp [List.length_drop]; omega)]

end EQVST

namespace EQVST

/-- Feeding one sample preserves the `tracks` relation: the completed
block (if any) is pushed, and the sample lands in the current partial
block. -/
theorem pushNextSample_tracks (B : ℕ) (hB : 1 ≤ B) (s : SingleChannelSampleFifo)
    (t : List ℚ) (a : ℚ) (h : s.tracks B t) :
    (s.pushNextSampleIntoFifo a).tracks B (t ++ [a]) := by
  obtain ⟨hlen, hidx, hbuf, hfifo⟩ := h
  have hq0 : t.length = 0 → completedBlocks B t = 0 := fun h0 => by
    simp [completedBlocks, h0]
  have hkey : completedBlocks B t * B ≤ t.length
      ∧ t.length - completedBlocks B t * B ≤ B
      ∧ (1 ≤ t.length → 1 ≤ t.length - completedBlocks B t * B) := by
    rcases Nat.eq_zero_or_pos t.length with h0 | h0
    · refine ⟨by simp [hq0 h0, h0], by simp [hq0 h0, h0], by omega⟩
    · have hqeq : completedBlocks B t = (t.length - 1) / B := by
        simp only [completedBlocks]
        rw [if_neg (by omega)]
      have hdm : completedBlocks B t * B + (t.length - 1) % B = t.length - 1 := by
        rw [hqeq, Nat.mul_comm]
        exact Nat.div_add_mod (t.length - 1) B
      have hmlt : (t.length - 1) % B < B := Nat.mod_lt _ (by omega)
      exact ⟨by omega, by omega, by omega⟩
  obtain ⟨hqle, hrle, hrpos⟩ := hkey
  have hlena : (t ++ [a]).length = t.length + 1 := by simp
  by_cases hfull : s.fifoIndex = s.bufferToFill.length
  · -- the current block is complete: push it, then `a` starts the next block
    have hrB : t.length - completedBlocks B t * B = B := by rw [← hidx, hfull, hlen]
    have hn1 : 1 ≤ t.length := by omega
    have hnB : t.length = completedBlocks B t * B + B := by omega
    have hq' : completedBlocks B (t ++ [a]) = completedBlocks B t + 1 := by
      have h1 : completedBlocks B (t ++ [a]) = t.length / B := by
        simp [completedBlocks]
      rw [h1, show t.length = B * (completedBlocks B t + 1) from by
        rw [Nat.mul_add, Nat.mul_one, Nat.mul_comm]; omega]
      exact Nat.mul_div_cancel_left _ (by omega)
    have hq'B : completedBlocks B (t ++ [a]) * B = completedBlocks B t * B + B := by
      rw [hq', Nat.add_mul, Nat.one_mul]
    have hfullbuf : s.bufferToFill = (t.drop (completedBlocks B t * B)).take B := by
      apply List.ext_getElem
      · simp only [hlen, List.length_take, List.length_drop]
        omega
      · intro i h1 h2
        have hiB : i < B := by rwa [hlen] at h1
        have hit : completedBlocks B t * B + i < t.length := by omega
        have hb := hbuf i (by omega)
        rw [List.getD_eq_getElem _ _ h1, List.getD_eq_getElem _ _ hit] at hb
        rw [hb, List.getElem_take, List.getElem_drop]
    simp only [SingleChannelSampleFifo.pushNextSampleIntoFifo]
    rw [if_pos hfull]
    refine ⟨by simp [hlen], ?_, ?_, ?_⟩
    · simp only [hlena, hq'B]
      omega
    · simp only [hlena, hq'B]
      intro j hj
      have hj0 : j = 0 := by omega
      subst hj0
      rw [List.getD_eq_getElem _ _ (by simp; omega),
        List.getElem_set_self (by simp; omega)]
      rw [Nat.add_zero, show completedBlocks B t * B + B = t.length from by omega]
      rw [List.getD_append_right t [a] 0 t.length (le_refl _)]
      simp
    · simp only [hq']
      rw [chunksOf_append B (completedBlocks B t + 1) t a (by
        rw [Nat.add_mul, Nat.one_mul]; omega)]
      rw [show chunksOf B (completedBlocks B t + 1) t
          = chunksOf B (completedBlocks B t) t
            ++ [(t.drop (completedBlocks B t * B)).take B] from by
        unfold chunksOf
        rw [List.range_succ, List.map_append]
        rfl]
      rw [Fifo.pushList_snd_append, ← hfifo, ← hfullbuf]
  · -- mid-block: the sample is appended to the current partial block
    have hrne : t.length - completedBlocks B t * B ≠ B := by
      intro hEq
      exact hfull (by rw [hidx, hEq, hlen])
    have hq' : completedBlocks B (t ++ [a]) = completedBlocks B t := by
      have h1 : completedBlocks B (t ++ [a]) = t.length / B := by
        simp [completedBlocks]
      rcases Nat.eq_zero_or_pos t.length with h0 | h0
      · rw [h1, h0, Nat.zero_div, hq0 h0]
      · obtain ⟨r, hr, hr1, hrB2⟩ :
            ∃ r, t.length = B * completedBlocks B t + r ∧ 1 ≤ r ∧ r < B :=
          ⟨t.length - completedBlocks B t * B, by rw [Nat.mul_comm]; omega,
           hrpos h0, by omega⟩
        rw [h1, hr, Nat.mul_add_div (by omega), Nat.div_eq_of_lt hrB2, Nat.add_zero]
    have hrltB : t.length - completedBlocks B t * B < B := by omega
    have hidxB : s.fifoIndex < B := by rw [hidx]; omega
    simp only [SingleChannelSampleFifo.pushNextSampleIntoFifo]
    rw [if_neg hfull]
    refine ⟨by simp [hlen], ?_, ?_, ?_⟩
    · simp only [hlena, hq', hidx]
      omega
    · simp only [hlena, hq']
      intro j hj
      by_cases hjr : j = t.length - completedBlocks B t * B
      · subst hjr
        rw [hidx] at hidxB ⊢
        rw [List.getD_eq_getElem _ _ (by simp [hlen]; omega),
          List.getElem_set_self (by simp [hlen]; omega)]
        rw [show completedBlocks B t * B + (t.length - completedBlocks B t * B)
            = t.length from by omega]
        rw [List.getD_append_right t [a] 0 t.length (le_refl _)]
        simp
      · have hjlt : j < t.length - completedBlocks B t * B := by omega
        have hjB : j < B := by omega
        have hne : s.fifoIndex ≠ j := by rw [hidx]; omega
        have hjt : completedBlocks B t * B + j < t.length := by omega
        rw [List.getD_eq_getElem _ _ (by simp [hlen]; omega),
          List.getElem_set_ne hne]
        rw [List.getD_append t [a] 0 _ hjt]
        have hb := hbuf j hjlt
        rw [List.getD_eq_getElem _ _ (by rw [hlen]; exact hjB)] at hb
        exact hb
    · simp only [hq']
      rw [chunksOf_append B (completedBlocks B t) t a hqle]
      exact hfifo

end EQVST

namespace EQVST

/-- A freshly prepared sample fifo tracks the empty stream. -/
theorem prepare_tracks (B : ℕ) :
    (SingleChannelSampleFifo.prepare B).tracks B [] := by
  refine ⟨by simp [SingleChannelSampleFifo.prepare],
    by simp [SingleChannelSampleFifo.prepare, completedBlocks], ?_, ?_⟩
  · intro j hj
    simp [completedBlocks] at hj
  · simp [SingleChannelSampleFifo.prepare, completedBlocks, chunksOf, Fifo.pushList]

/-- Feeding a stream of samples extends the tracked stream. -/
theorem feed_tracks (B : ℕ) (hB : 1 ≤ B) (xs : List ℚ) :
    ∀ (s : SingleChannelSampleFifo) (t : List ℚ), s.tracks B t →
      (s.feed xs).tracks B (t ++ xs) := by
  induction xs with
  | nil =>
    intro s t h
    simpa [SingleChannelSampleFifo.feed] using h
  | cons x rest ih =>
    intro s t h
    have h2 := ih (s.pushNextSampleIntoFifo x) (t ++ [x])
      (pushNextSample_tracks B hB s t x h)
    simpa [SingleChannelSampleFifo.feed, List.append_assoc] using h2

/-- **C7, counterexample.** The claim says that after exactly `K·B`
samples, `K` complete blocks have been pushed.  The code pushes a
completed block only when the *next* sample arrives: with block size
`B = 2`, after the 2 samples `[1, 2]` no block is available yet; the
block `[1, 2]` is pushed only on arrival of the third sample. -/
theorem scsf_block_pushed_one_sample_late :
    ((SingleChannelSampleFifo.prepare 2).feed
        [1, 2]).audioBufferFifo.getNumAvailableForReading = 0
    ∧ ((SingleChannelSampleFifo.prepare 2).feed
        [1, 2, 3]).audioBufferFifo.getNumAvailableForReading = 1 := by
  decide

/-- **C7, amended.** For block size `B ≥ 1` and `1 ≤ K ≤ 30`, after
feeding exactly `K·B` samples, `K − 1` complete blocks have been
pushed (the `K`-th completed block waits in `bufferToFill` until the
next sample arrives), and pushed block `j` is the consecutive run
`xs[j·B ... (j+1)·B)` of the input in arrival order. -/
theorem scsf_accumulates_blocks (B K : ℕ) (hB : 1 ≤ B) (hK1 : 1 ≤ K) (hK30 : K ≤ 30)
    (xs : List ℚ) (hlen : xs.length = K * B) :
    ((SingleChannelSampleFifo.prepare B).feed
        xs).audioBufferFifo.getNumAvailableForReading = K - 1
    ∧ ∀ j < K - 1,
        ((SingleChannelSampleFifo.prepare B).feed xs).audioBufferFifo.buffers.getD j []
          = (xs.drop (j * B)).take B := by
  obtain ⟨k, rfl⟩ : ∃ k, K = k + 1 := ⟨K - 1, by omega⟩
  have htr := feed_tracks B hB xs (SingleChannelSampleFifo.prepare B) []
    (prepare_tracks B)
  rw [List.nil_append] at htr
  obtain ⟨-, -, -, hfifo⟩ := htr
  have hq : completedBlocks B xs = k := by
    simp only [completedBlocks, hlen]
    rw [if_neg (by
      have := Nat.mul_pos (show 0 < k + 1 by omega) (show 0 < B by omega)
      omega)]
    rw [show (k + 1) * B - 1 = B * k + (B - 1) from by
      rw [Nat.succ_mul, Nat.mul_comm B k]
      omega]
    rw [Nat.mul_add_div (by omega), Nat.div_eq_of_lt (by omega), Nat.add_zero]
  rw [hq] at hfifo
  have hchlen : (chunksOf B k xs).length = k := by simp [chunksOf]
  have hfr : (Fifo.fresh (List.replicate B 0) : Fifo (List ℚ))
      = ⟨List.replicate 30 (List.replicate B 0), 0, 0⟩ := rfl
  have hpl := Fifo.pushList_inRange (chunksOf B k xs)
    (List.replicate 30 (List.replicate B 0)) 0 (by simp) (by omega)
  rw [hfr, hpl] at hfifo
  simp only [List.take_zero, List.nil_append, Nat.zero_add, hchlen] at hfifo
  constructor
  · rw [hfifo]
    simp [Fifo.getNumAvailableForReading, Fifo.numReady]
  · intro j hj
    rw [hfifo]
    have hjlen : j < (chunksOf B k xs).length := by omega
    rw [List.getD_append _ _ _ _ hjlen]
    rw [List.getD_eq_getElem _ _ hjlen]
    simp [chunksOf]

/-- Witness for the amended C7 at block size 2 and four samples. -/
theorem scsf_accumulates_blocks_witness :
    ((SingleChannelSampleFifo.prepare 2).feed
        [1, 2, 3, 4]).audioBufferFifo.getNumAvailableForReading = 2 - 1
    ∧ ∀ j < 2 - 1,
        ((SingleChannelSampleFifo.prepare 2).feed
            [1, 2, 3, 4]).audioBufferFifo.buffers.getD j []
          = (([1, 2, 3, 4] : List ℚ).drop (j * 2)).take 2 :=
  scsf_accumulates_blocks 2 2 (by omega) (by omega) (by omega) [1, 2, 3, 4] (by decide)

end EQVST
